import Mathlib

/-!
Verification of the `little` template execution engine (interpreter path).

The definitions below are a shallow embedding of `src/interpreter.rs` and
`src/bytecode.rs`: the stack machine state, the `execute` step, the pull-based
`read` adapter and the bytecode header.  Rust `usize` arithmetic that can wrap
is modelled with explicit arithmetic modulo 2^64 (release-profile semantics);
Rust panics (slice out of range, `unwrap` on `Err`, the `MAX_VALUES` check)
are modelled by a distinct `crash` outcome.
-/

namespace Little

/-- The `LittleValue` capability contract: default value, the `PartialEq`
test, the `PartialOrd` comparison (`none` = incomparable) and the `Display`
form as a byte list. -/
class LittleValue (V : Type) where
  dflt : V
  beq : V → V → Bool
  pcmp : V → V → Option Ordering
  display : V → List Nat

/-- Memory location (`Mem` in the source); index newtypes are flattened
to `Nat`. -/
inductive Mem where
  | binding (i : Nat)
  | param (i : Nat)
  | const (i : Nat)
  | stackTop1
  | stackTop2
deriving DecidableEq, Repr

/-- Jump condition (`Cond`). -/
inductive Cond where
  | eq | ne | gt | lt | gte | lte
deriving DecidableEq, Repr

/-- Machine instruction (`Instruction`), in the shape `interpreter.rs`
consumes: `pop` carries a u16 count, `jump`/`condJump` a u16 target,
`call` a u8 argument count plus the push-result flag. -/
inductive Instruction where
  | output (m : Mem)
  | pop (c : Nat)
  | push (m : Mem)
  | load (b : Nat) (m : Mem)
  | jump (loc : Nat)
  | condJump (loc : Nat) (m : Mem) (cond : Cond)
  | call (c : Nat) (argc : Nat) (ret : Bool)
  | interupt
deriving Repr

/-- Runtime error (`interpreter::Error`).  The opaque boxed inner error of
`callError` is modelled as a `String`. -/
inductive Error where
  | parameterMissing (p : Nat)
  | constantMissing (c : Nat)
  | callMissing (c : Nat)
  | callError (inner : String)
  | outputError
  | stackUnderflow
  | interupt
deriving DecidableEq, Repr

/-- Result of one `execute` step (`ExecutionResult`). -/
inductive ExecutionResult where
  | done | cont | interupt
deriving DecidableEq, Repr

/-- Mutable per-stream state (`InterpreterStream` plus the mutable part of
`Values`): program counter, pending output bytes, operand stack (index 0 is
the bottom, last element is the stack top, as in a Rust `Vec`), and the
binding vector. -/
structure Machine (V : Type) where
  pc : Nat
  buf : List Nat
  stack : List V
  values : List V

/-- The immutable context of a run (`Process` plus the per-run parameter
table): instructions, constant table, resolved host calls and parameters.
Host calls return `Except String V`, mirroring `LittleResult<V>`. -/
structure Process (V : Type) where
  instructions : List Instruction
  constants : Nat → Option V
  calls : Nat → Option (List V → Except String V)
  parameters : Nat → Option V

/-- Outcome of one `execute` step: a normal result together with the next
state, an error together with the state at the error, or a Rust panic. -/
inductive Outcome (V : Type) where
  | ok (r : ExecutionResult) (s : Machine V)
  | err (e : Error) (s : Machine V)
  | crash

/-- `MAX_VALUES` from `interpreter.rs`. -/
def MAX_VALUES : Nat := 500000

/-- 2^64, the modulus of `usize` arithmetic. -/
def two64 : Nat := 18446744073709551616

/-- Wrapping `usize` subtraction (release-profile semantics of `a - b`). -/
def wrapSub (a b : Nat) : Nat := (a + (two64 - b % two64)) % two64

/-- Bounds-checked vector access, `Vec::get`. -/
def vecGet (l : List α) (i : Nat) : Option α :=
  if h : i < l.length then some (l.get ⟨i, h⟩) else none

/-- Slice `l[a..b]`; `none` models the Rust panic on an invalid range. -/
def sliceRange (l : List α) (a b : Nat) : Option (List α) :=
  if a ≤ b ∧ b ≤ l.length then some ((l.take b).drop a) else none

/-- The growth part of `Values::ensure_capacity_for_index`: extend to `n`
slots with default values (no-op when already long enough). -/
def growTo [LittleValue V] (l : List V) (n : Nat) : List V :=
  if l.length < n then l ++ List.replicate (n - l.length) LittleValue.dflt else l

/-- `Values::set`: capacity check (`none` models the `MAX_VALUES` panic),
growth with defaults, then the write at `i`. -/
def valuesSet [LittleValue V] (l : List V) (i : Nat) (v : V) : Option (List V) :=
  if MAX_VALUES < i + 1 then none
  else some ((growTo l (i + 1)).set i v)

/-- `Values::get`: out-of-range binding reads yield the default value. -/
def valuesGet [LittleValue V] (l : List V) (i : Nat) : V :=
  match vecGet l i with
  | some v => v
  | none => LittleValue.dflt

/-- `Values::get_mem_value`.  `StackTop2` reads `stack.get(len - 2)` with
wrapping `usize` subtraction, exactly as the source does. -/
def getMemValue [LittleValue V] (p : Process V) (s : Machine V) (m : Mem) :
    Except Error V :=
  match m with
  | Mem.binding i => Except.ok (valuesGet s.values i)
  | Mem.param i =>
    match p.parameters i with
    | some v => Except.ok v
    | none => Except.error (Error.parameterMissing i)
  | Mem.const i =>
    match p.constants i with
    | some v => Except.ok v
    | none => Except.error (Error.constantMissing i)
  | Mem.stackTop1 =>
    match s.stack.getLast? with
    | some v => Except.ok v
    | none => Except.error Error.stackUnderflow
  | Mem.stackTop2 =>
    match vecGet s.stack (wrapSub s.stack.length 2) with
    | some v => Except.ok v
    | none => Except.error Error.stackUnderflow

/-- The comparison used by `CondJump`: `==`/`!=` are `PartialEq`, the four
order tests are the `PartialOrd` default methods over `partial_cmp`, so an
incomparable pair (`none`) makes every order test false. -/
def condHolds [LittleValue V] (c : Cond) (a b : V) : Bool :=
  match c with
  | Cond.eq => LittleValue.beq a b
  | Cond.ne => !(LittleValue.beq a b)
  | Cond.gt =>
    match LittleValue.pcmp a b with
    | some Ordering.gt => true
    | _ => false
  | Cond.gte =>
    match LittleValue.pcmp a b with
    | some Ordering.gt => true
    | some Ordering.eq => true
    | _ => false
  | Cond.lt =>
    match LittleValue.pcmp a b with
    | some Ordering.lt => true
    | _ => false
  | Cond.lte =>
    match LittleValue.pcmp a b with
    | some Ordering.lt => true
    | some Ordering.eq => true
    | _ => false

/-- The `Pop` loop: remove the last element `c` times; `none` is the
underflow (the stack at that moment is empty, items already popped stay
popped). -/
def popN (st : List V) : Nat → Option (List V)
  | 0 => some st
  | Nat.succ n =>
    match st with
    | [] => none
    | _ :: _ => popN st.dropLast n

/-- One step of the stack machine, `InterpreterStream::execute`. -/
def execute [LittleValue V] (p : Process V) (s : Machine V) : Outcome V :=
  match p.instructions.get? s.pc with
  | none => Outcome.ok ExecutionResult.done s
  | some i =>
    match i with
    | Instruction.output m =>
      match getMemValue p s m with
      | Except.error e => Outcome.err e s
      | Except.ok v =>
        Outcome.ok ExecutionResult.cont
          { s with buf := s.buf ++ LittleValue.display v, pc := s.pc + 1 }
    | Instruction.pop c =>
      match popN s.stack c with
      | none => Outcome.err Error.stackUnderflow { s with stack := [] }
      | some st => Outcome.ok ExecutionResult.cont { s with stack := st, pc := s.pc + 1 }
    | Instruction.push m =>
      match getMemValue p s m with
      | Except.error e => Outcome.err e s
      | Except.ok v =>
        Outcome.ok ExecutionResult.cont { s with stack := s.stack ++ [v], pc := s.pc + 1 }
    | Instruction.load b m =>
      match getMemValue p s m with
      | Except.error e => Outcome.err e s
      | Except.ok v =>
        match valuesSet s.values b v with
        | none => Outcome.crash
        | some vals =>
          Outcome.ok ExecutionResult.cont { s with values := vals, pc := s.pc + 1 }
    | Instruction.jump loc => Outcome.ok ExecutionResult.cont { s with pc := loc }
    | Instruction.condJump loc m cond =>
      match getMemValue p s m with
      | Except.error e => Outcome.err e s
      | Except.ok v =>
        match s.stack.getLast? with
        | none => Outcome.err Error.stackUnderflow s
        | some top =>
          if condHolds cond top v
          then Outcome.ok ExecutionResult.cont { s with pc := loc }
          else Outcome.ok ExecutionResult.cont { s with pc := s.pc + 1 }
    | Instruction.call c argc ret =>
      match p.calls c with
      | none => Outcome.err (Error.callMissing c) s
      | some f =>
        match sliceRange s.stack (wrapSub s.stack.length argc) s.stack.length with
        | none => Outcome.crash
        | some args =>
          match ret, f args with
          | true, Except.error _ => Outcome.crash
          | true, Except.ok v =>
            Outcome.ok ExecutionResult.cont { s with stack := s.stack ++ [v], pc := s.pc + 1 }
          | false, _ => Outcome.ok ExecutionResult.cont { s with pc := s.pc + 1 }
    | Instruction.interupt =>
      Outcome.ok ExecutionResult.interupt { s with pc := s.pc + 1 }

/-- The fresh state built by `Process::run`. -/
def initMachine {V : Type} : Machine V :=
  { pc := 0, buf := [], stack := [], values := [] }

/-- `consume_buf`: copy from the front of the pending buffer into a
destination of length `dstLen`; yields the byte count, the copied bytes
and the state with those bytes drained. -/
def consumeBuf (s : Machine V) (dstLen : Nat) : Nat × List Nat × Machine V :=
  if s.buf.length ≥ dstLen then
    (dstLen, s.buf.take dstLen, { s with buf := s.buf.drop dstLen })
  else
    (s.buf.length, s.buf, { s with buf := [] })

/-- Result of one `read` call: delivered count and bytes with the next
state, a transport error with the state at the error, a panic, or fuel
exhaustion (the source loop has no fuel; `fuelOut` only marks that the
chosen bound was too small). -/
inductive ReadResult (V : Type) where
  | ok (n : Nat) (bytes : List Nat) (s : Machine V)
  | err (e : Error) (s : Machine V)
  | crash
  | fuelOut (s : Machine V)

/-- `io::Read::read` for `InterpreterStream`, with an explicit step budget:
while the buffer holds fewer bytes than the destination, step the machine;
on `Done` or a full-enough buffer, drain via `consumeBuf`. -/
def read [LittleValue V] (p : Process V) : Nat → Machine V → Nat → ReadResult V
  | 0, s, dstLen =>
    if s.buf.length ≥ dstLen then
      ReadResult.ok (consumeBuf s dstLen).1 (consumeBuf s dstLen).2.1 (consumeBuf s dstLen).2.2
    else ReadResult.fuelOut s
  | Nat.succ fuel, s, dstLen =>
    if s.buf.length ≥ dstLen then
      ReadResult.ok (consumeBuf s dstLen).1 (consumeBuf s dstLen).2.1 (consumeBuf s dstLen).2.2
    else
      match execute p s with
      | Outcome.ok ExecutionResult.done s2 =>
        ReadResult.ok (consumeBuf s2 dstLen).1 (consumeBuf s2 dstLen).2.1 (consumeBuf s2 dstLen).2.2
      | Outcome.ok ExecutionResult.cont s2 => read p fuel s2 dstLen
      | Outcome.ok ExecutionResult.interupt s2 => ReadResult.err Error.interupt s2
      | Outcome.err e s2 => ReadResult.err e s2
      | Outcome.crash => ReadResult.crash

/-- Result of driving `read` in a loop until it reports zero bytes. -/
inductive LoopResult where
  | finished (bytes : List Nat) (interupts : Nat)
  | failed (e : Error)
  | crashed
  | fuelOut
deriving DecidableEq, Repr

/-- The consumer loop of the `can_handle_interupt` test: call `read` with a
fixed destination size, append delivered bytes, swallow and count
`interupt` errors, stop at a zero-byte read. -/
def readLoop [LittleValue V] (p : Process V) :
    Nat → Machine V → Nat → List Nat → Nat → LoopResult
  | 0, _, _, _, _ => LoopResult.fuelOut
  | Nat.succ fuel, s, dstLen, acc, k =>
    match read p (Nat.succ fuel) s dstLen with
    | ReadResult.ok 0 _ _ => LoopResult.finished acc k
    | ReadResult.ok (Nat.succ _) bytes s2 => readLoop p fuel s2 dstLen (acc ++ bytes) k
    | ReadResult.err Error.interupt s2 => readLoop p fuel s2 dstLen acc (k + 1)
    | ReadResult.err e _ => LoopResult.failed e
    | ReadResult.crash => LoopResult.crashed
    | ReadResult.fuelOut _ => LoopResult.fuelOut

/-- Bytecode file header (`bytecode::Header`): a `u32` magic field. -/
structure Header where
  magic : Nat
deriving DecidableEq, Repr

/-- `Header::magic()` as written in the source: the decimal literal
52231103. -/
def Header.magicValue : Nat := 52231103

/-- `Header::new()`. -/
def Header.new : Header := { magic := Header.magicValue }

/-- `Header::is_magical()`. -/
def Header.isMagical (h : Header) : Bool := h.magic = Header.magicValue

/-- `Serializer::serialize` for `Header`: `write_u32::<LittleEndian>`
emits four little-endian bytes; the returned count is
`size_of::<Header>() = 4`. -/
def Header.serialize (h : Header) : List Nat :=
  [h.magic % 256, h.magic / 256 % 256, h.magic / 65536 % 256, h.magic / 16777216 % 256]

/-- Bytecode read error (`bytecode::Error`), io variant collapsed. -/
inductive BytecodeError where
  | invalidBinaryFormat
  | unexpectedEOF
  | io
deriving DecidableEq, Repr

/-- `Serializer::deserialize` for `Header`: read four little-endian bytes
(fewer available is `UnexpectedEOF`), return the byte count 4 and the
header. -/
def Header.deserialize (input : List Nat) : Except BytecodeError (Nat × Header) :=
  match input with
  | b0 :: b1 :: b2 :: b3 :: _ =>
    Except.ok (4, { magic := b0 + 256 * b1 + 65536 * b2 + 16777216 * b3 })
  | _ => Except.error BytecodeError.unexpectedEOF

/-- Byte-list comparison, lexicographic (Rust `String` ordering). -/
def bytesCmp : List Nat → List Nat → Ordering
  | [], [] => Ordering.eq
  | [], _ :: _ => Ordering.lt
  | _ :: _, [] => Ordering.gt
  | a :: l1, b :: l2 =>
    match compare a b with
    | Ordering.eq => bytesCmp l1 l2
    | o => o

/-- Decimal digits of a natural number as ASCII bytes. -/
def natDisplay (n : Nat) : List Nat := (Nat.toDigits 10 n).map Char.toNat

/-- `Display` of an `i64` as ASCII bytes. -/
def intDisplay (i : Int) : List Nat :=
  if i < 0 then 45 :: natDisplay i.natAbs else natDisplay i.toNat

/-- The concrete value type of the interpreter tests: `Null`, `Int(i64)`,
`Str(String)` (strings as byte lists), with derived structural equality and
the derived `PartialOrd` (variant order `Null < Int < Str`, fields
compared within a variant).  `Null` displays as empty bytes. -/
inductive Value where
  | null
  | int (i : Int)
  | str (s : List Nat)
deriving DecidableEq, Repr

instance : LittleValue Value where
  dflt := Value.null
  beq a b := a = b
  pcmp a b :=
    match a, b with
    | Value.null, Value.null => some Ordering.eq
    | Value.null, _ => some Ordering.lt
    | Value.int _, Value.null => some Ordering.gt
    | Value.int i, Value.int j => some (compare i j)
    | Value.int _, Value.str _ => some Ordering.lt
    | Value.str s1, Value.str s2 => some (bytesCmp s1 s2)
    | Value.str _, _ => some Ordering.gt
  display v :=
    match v with
    | Value.null => []
    | Value.int i => intDisplay i
    | Value.str s => s

/-- A genuinely partial order for exercising incomparable operands:
two elements comparable only to themselves. -/
inductive PV where
  | a | b
deriving DecidableEq, Repr

instance : LittleValue PV where
  dflt := PV.a
  beq x y := x = y
  pcmp x y :=
    match x, y with
    | PV.a, PV.a => some Ordering.eq
    | PV.b, PV.b => some Ordering.eq
    | _, _ => none
  display _ := []

/-- One successful machine step that continues execution. -/
def step [LittleValue V] (p : Process V) (s s2 : Machine V) : Prop :=
  execute p s = Outcome.ok ExecutionResult.cont s2

/-- Zero or more continuing machine steps. -/
def stepsTo [LittleValue V] (p : Process V) : Machine V → Machine V → Prop :=
  Relation.ReflTransGen (step p)

/-- A process whose single host function always fails, called twice: once
with the result discarded, once with the push-result flag set. -/
def callErrP : Process Value :=
  { instructions := [Instruction.call 0 0 false, Instruction.call 0 0 true]
    constants := fun _ => none
    calls := fun i => if i = 0 then some (fun _ => Except.error "host failure") else none
    parameters := fun _ => none }

/-- A process invoking a one-argument host function on an empty stack. -/
def callUnderP : Process Value :=
  { instructions := [Instruction.call 0 1 false]
    constants := fun _ => none
    calls := fun i => if i = 0 then some (fun _ => Except.ok Value.null) else none
    parameters := fun _ => none }

/-- The `can_handle_interupt` program: output "Abr", interrupt, output
"Abr" again, with `Constant(1) = "Abr"`. -/
def interuptP : Process Value :=
  { instructions :=
      [Instruction.output (Mem.const 1), Instruction.interupt,
       Instruction.output (Mem.const 1)]
    constants := fun i => if i = 1 then some (Value.str [65, 98, 114]) else none
    calls := fun _ => none
    parameters := fun _ => none }

/-- A one-instruction program jumping far past the end of the program. -/
def jumpP : Process Value :=
  { instructions := [Instruction.jump 5]
    constants := fun _ => none
    calls := fun _ => none
    parameters := fun _ => none }

/-- A process with an empty program. -/
def emptyP : Process Value :=
  { instructions := []
    constants := fun _ => none
    calls := fun _ => none
    parameters := fun _ => none }

/-- A two-argument summing host call over two pushed constants, used as a
concrete well-behaved `Call` scenario. -/
def callOkP : Process Value :=
  { instructions :=
      [Instruction.push (Mem.const 1), Instruction.push (Mem.const 2),
       Instruction.call 1 2 true, Instruction.output Mem.stackTop1]
    constants := fun i =>
      if i = 1 then some (Value.int 2) else if i = 2 then some (Value.int 3) else none
    calls := fun i =>
      if i = 1 then
        some (fun args =>
          match args with
          | [Value.int a, Value.int b] => Except.ok (Value.int (a + b))
          | _ => Except.error "bad arguments")
      else none
    parameters := fun _ => none }

end Little

namespace Little

section PureLemmas

lemma wrapSub_of_le {a b : Nat} (hba : b ≤ a) (ha : a < two64) :
    wrapSub a b = a - b := by
  simp only [wrapSub, two64] at *
  omega

lemma wrapSub_two_ge {a : Nat} (h : a < 2) : a ≤ wrapSub a 2 := by
  simp only [wrapSub, two64]
  omega

lemma sliceRange_suffix (l : List α) {a : Nat} (h : a ≤ l.length) :
    sliceRange l a l.length = some (l.drop a) := by
  simp [sliceRange, h]

lemma sliceRange_oob (l : List α) {a : Nat} (h : l.length < a) :
    sliceRange l a l.length = none := by
  simp [sliceRange]
  omega

lemma consumeBuf_eq {V : Type} (s : Machine V) (d : Nat) :
    consumeBuf s d =
      (min s.buf.length d, s.buf.take (min s.buf.length d),
        { s with buf := s.buf.drop (min s.buf.length d) }) := by
  unfold consumeBuf
  split
  · rename_i hge
    have : min s.buf.length d = d := by omega
    rw [this]
  · rename_i hlt
    have : min s.buf.length d = s.buf.length := by omega
    rw [this]
    simp

end PureLemmas

variable {V : Type} [LittleValue V]

lemma exec_done_eq {p : Process V} {s s2 : Machine V}
    (h : execute p s = Outcome.ok ExecutionResult.done s2) :
    s2 = s ∧ p.instructions.get? s.pc = none := by
  unfold execute at h
  repeat' split at h
  all_goals simp_all

lemma exec_interupt_eq {p : Process V} {s s2 : Machine V}
    (h : execute p s = Outcome.ok ExecutionResult.interupt s2) :
    s2 = { s with pc := s.pc + 1 } := by
  unfold execute at h
  repeat' split at h
  all_goals simp_all

lemma exec_err_state {p : Process V} {s s2 : Machine V} {e : Error}
    (h : execute p s = Outcome.err e s2) :
    s2.buf = s.buf ∧ s2.pc = s.pc ∧ s2.values = s.values := by
  unfold execute at h
  repeat' split at h
  all_goals simp_all
  all_goals (cases h.2; simp)

lemma exec_cont_buf {p : Process V} {s s2 : Machine V}
    (h : execute p s = Outcome.ok ExecutionResult.cont s2) :
    ∃ t, s2.buf = s.buf ++ t := by
  unfold execute at h
  repeat' split at h
  all_goals simp_all
  all_goals (cases h; simp)

lemma valuesSet_length {l l2 : List V} {i : Nat} {v : V}
    (h : valuesSet l i v = some l2) :
    l2.length = max l.length (i + 1) ∧ i + 1 ≤ MAX_VALUES := by
  unfold valuesSet at h
  split at h
  · simp_all
  · simp only [Option.some.injEq] at h
    subst h
    constructor
    · simp only [List.length_set, growTo]
      split <;> simp <;> omega
    · omega

lemma exec_ok_values_le {p : Process V} {s s2 : Machine V} {r : ExecutionResult}
    (h : execute p s = Outcome.ok r s2)
    (hle : s.values.length ≤ MAX_VALUES) : s2.values.length ≤ MAX_VALUES := by
  unfold execute at h
  repeat' split at h
  all_goals simp_all
  all_goals try (cases h.2; simpa)
  all_goals (cases h.2; rename_i hvs; have := valuesSet_length hvs; simp; omega)

lemma read_full {p : Process V} {s : Machine V} {d : Nat} (fuel : Nat)
    (h : d ≤ s.buf.length) :
    read p fuel s d =
      ReadResult.ok (min s.buf.length d) (s.buf.take (min s.buf.length d))
        { s with buf := s.buf.drop (min s.buf.length d) } := by
  cases fuel <;> (rw [read]; rw [if_pos (by omega)]; rw [consumeBuf_eq])

lemma read_step {p : Process V} {s : Machine V} {d : Nat} (fuel : Nat)
    (h : ¬ d ≤ s.buf.length) :
    read p (Nat.succ fuel) s d =
      match execute p s with
      | Outcome.ok ExecutionResult.done s2 =>
        ReadResult.ok (min s2.buf.length d) (s2.buf.take (min s2.buf.length d))
          { s2 with buf := s2.buf.drop (min s2.buf.length d) }
      | Outcome.ok ExecutionResult.cont s2 => read p fuel s2 d
      | Outcome.ok ExecutionResult.interupt s2 => ReadResult.err Error.interupt s2
      | Outcome.err e s2 => ReadResult.err e s2
      | Outcome.crash => ReadResult.crash := by
  rw [read]
  rw [if_neg (by omega)]
  cases hx : execute p s with
  | ok r s2 => cases r <;> simp [consumeBuf_eq]
  | err e s2 => simp
  | crash => simp

end Little

namespace Little

/-- A process popping one item off the (empty) stack. -/
def popP : Process Value :=
  { instructions := [Instruction.pop 1]
    constants := fun _ => none
    calls := fun _ => none
    parameters := fun _ => none }

/-- A process loading a constant into binding 2. -/
def loadP : Process Value :=
  { instructions := [Instruction.load 2 (Mem.const 1)]
    constants := fun i => if i = 1 then some (Value.str [72, 105]) else none
    calls := fun _ => none
    parameters := fun _ => none }

/-- A conditional-jump-on-equality process with `Constant(1) = Int(1)`. -/
def condP : Process Value :=
  { instructions := [Instruction.condJump 3 (Mem.const 1) Cond.eq]
    constants := fun i => if i = 1 then some (Value.int 1) else none
    calls := fun _ => none
    parameters := fun _ => none }

/-- C1: the claim says a failing host function surfaces as the `CallError`
kind in both push modes.  The code does neither: with
`push_result_to_stack = false` the error is silently discarded and
execution continues, and with `true` the `result.unwrap()` panics.  The
`CallError` variant exists in the error type but is never constructed. -/
theorem host_error_not_propagated :
    execute callErrP initMachine =
      Outcome.ok ExecutionResult.cont (Machine.mk 1 [] ([] : List Value) []) ∧
    execute callErrP (Machine.mk 1 [] ([] : List Value) []) = Outcome.crash :=
  ⟨rfl, rfl⟩

/-- C2 counterexample: a `Call` needing one argument on an empty stack
panics at the argument slice (out-of-range), it does not produce the
`StackUnderflow` error the claim promises. -/
theorem call_underflow_crash :
    execute callUnderP initMachine = Outcome.crash ∧
    (initMachine (V := Value)).stack.length < 1 :=
  ⟨rfl, by decide⟩

/-- C2 (amended): `Pop` with a positive count on an empty stack, and
`StackTop1`/`StackTop2` reads on a too-small stack, make the current read
return `StackUnderflow`; but `Call` with `argc` exceeding the stack length
panics (crashes) at the argument slice instead of reporting
`StackUnderflow`.  A machine error raised during a read surfaces as that
read's transport error. -/
theorem underflow_reporting :
    (∀ (V : Type) [LittleValue V] (p : Process V) (s : Machine V) (c : Nat),
      p.instructions.get? s.pc = some (Instruction.pop (c + 1)) → s.stack = [] →
      execute p s = Outcome.err Error.stackUnderflow { s with stack := [] }) ∧
    (∀ (V : Type) [LittleValue V] (p : Process V) (s : Machine V),
      s.stack.length < 1 →
      getMemValue p s Mem.stackTop1 = Except.error Error.stackUnderflow) ∧
    (∀ (V : Type) [LittleValue V] (p : Process V) (s : Machine V),
      s.stack.length < 2 →
      getMemValue p s Mem.stackTop2 = Except.error Error.stackUnderflow) ∧
    (∀ (V : Type) [LittleValue V] (p : Process V) (s : Machine V) (c argc : Nat)
      (ret : Bool) (f : List V → Except String V),
      p.instructions.get? s.pc = some (Instruction.call c argc ret) →
      p.calls c = some f → s.stack.length < argc → argc ≤ 255 →
      execute p s = Outcome.crash) ∧
    (∀ (V : Type) [LittleValue V] (p : Process V) (fuel : Nat) (s : Machine V)
      (d : Nat) (e : Error) (s2 : Machine V),
      s.buf.length < d → execute p s = Outcome.err e s2 →
      read p (Nat.succ fuel) s d = ReadResult.err e s2) := by
  refine ⟨?_, ?_, ?_, ?_, ?_⟩
  · intro V _ p s c hi hstack
    simp only [List.get?_eq_getElem?] at hi
    simp [execute, hi, hstack, popN]
  · intro V _ p s hlen
    have : s.stack = [] := List.length_eq_zero.mp (by omega)
    simp [getMemValue, this]
  · intro V _ p s hlen
    have hge : s.stack.length ≤ wrapSub s.stack.length 2 := wrapSub_two_ge hlen
    have : vecGet s.stack (wrapSub s.stack.length 2) = none := by
      unfold vecGet
      rw [dif_neg (by omega)]
    simp [getMemValue, this]
  · intro V _ p s c argc ret f hi hc hlen hargc
    have hgt : s.stack.length < wrapSub s.stack.length argc := by
      simp only [wrapSub, two64]
      omega
    have hs := sliceRange_oob s.stack hgt
    simp only [List.get?_eq_getElem?] at hi
    simp [execute, hi, hc, hs]
  · intro V _ p fuel s d e s2 hbuf hx
    rw [read_step fuel (by omega), hx]

/-- C2 witness: each amended case at a concrete input. -/
theorem underflow_reporting_witness :
    execute popP initMachine =
      Outcome.err Error.stackUnderflow { initMachine (V := Value) with stack := [] } ∧
    getMemValue emptyP initMachine Mem.stackTop1 = Except.error Error.stackUnderflow ∧
    getMemValue emptyP initMachine Mem.stackTop2 = Except.error Error.stackUnderflow ∧
    execute callUnderP initMachine = Outcome.crash ∧
    read popP 1 initMachine 1 = ReadResult.err Error.stackUnderflow initMachine :=
  ⟨underflow_reporting.1 Value popP initMachine 0 rfl rfl,
   underflow_reporting.2.1 Value emptyP initMachine (by decide),
   underflow_reporting.2.2.1 Value emptyP initMachine (by decide),
   underflow_reporting.2.2.2.1 Value callUnderP initMachine 0 1 false
     (fun _ => Except.ok Value.null) rfl rfl (by decide) (by decide),
   underflow_reporting.2.2.2.2 Value popP 0 initMachine 1 Error.stackUnderflow
     initMachine (by decide) rfl⟩

/-- C7 counterexample: the one-instruction program `[Jump 5]` reaches
program counter 5, which is neither a valid instruction index nor the
program length 1. -/
theorem jump_target_unconfined :
    execute jumpP initMachine =
      Outcome.ok ExecutionResult.cont (Machine.mk 5 [] ([] : List Value) []) ∧
    jumpP.instructions.length = 1 ∧ jumpP.instructions.length < 5 :=
  ⟨rfl, rfl, by decide⟩

/-- C7 (amended): jump targets are not confined to the program, so the
program counter may exceed the instruction count; any such out-of-range
program counter is terminal: `execute` reports `Done` and leaves the state
untouched, it never crashes. -/
theorem pc_out_of_range_is_done (V : Type) [LittleValue V] (p : Process V)
    (s : Machine V) (h : p.instructions.length ≤ s.pc) :
    execute p s = Outcome.ok ExecutionResult.done s := by
  have hx : p.instructions.get? s.pc = none := List.get?_eq_none.mpr h
  simp only [List.get?_eq_getElem?] at hx
  simp [execute, hx]

/-- C7 witness: the out-of-range state reached by `[Jump 5]` is terminal. -/
theorem pc_out_of_range_is_done_witness :
    execute jumpP (Machine.mk 5 [] ([] : List Value) []) =
      Outcome.ok ExecutionResult.done (Machine.mk 5 [] ([] : List Value) []) :=
  pc_out_of_range_is_done Value jumpP (Machine.mk 5 [] ([] : List Value) []) (by decide)

/-- C9 counterexample: the header's magic is the decimal literal 52231103,
but the hex number 0x031CF0FF the claim equates it with is 52228351; a
header carrying the claim's hex value is not magical. -/
theorem magic_hex_mismatch :
    Header.new.magic = 52231103 ∧ (0x031CF0FF : Nat) = 52228351 ∧
    Header.isMagical (Header.mk 0x031CF0FF) = false :=
  ⟨rfl, by decide, by decide⟩

/-- C9 (amended): the bytecode header's 4-byte little-endian magic is
decimal 52231103 — hex 0x031CFBBF, not 0x031CF0FF — and for every header
whose magic fits in a `u32`, deserializing the serialized bytes (with any
trailing input) returns byte count 4 and the original header. -/
theorem header_magic_roundtrip :
    Header.magicValue = 52231103 ∧ (52231103 : Nat) = 0x031CFBBF ∧
    Header.serialize Header.new = [191, 251, 28, 3] ∧
    (∀ (h : Header) (rest : List Nat), h.magic < 4294967296 →
      Header.deserialize (Header.serialize h ++ rest) = Except.ok (4, h)) := by
  refine ⟨rfl, by decide, by decide, ?_⟩
  intro h rest hlt
  have hm : h.magic % 256 + 256 * (h.magic / 256 % 256) + 65536 * (h.magic / 65536 % 256) +
      16777216 * (h.magic / 16777216 % 256) = h.magic := by omega
  simp [Header.serialize, Header.deserialize, hm]

/-- C9 witness: the round-trip at the canonical header. -/
theorem header_magic_roundtrip_witness :
    Header.deserialize (Header.serialize Header.new ++ []) =
      Except.ok (4, Header.new) :=
  header_magic_roundtrip.2.2.2 Header.new [] (by decide)

end Little

namespace Little

/-- C3: a `Call` whose `argc` fits the stack never removes the arguments:
the post-call stack is the untouched pre-call stack, with the returned
value appended exactly when the push-result flag is set (so the length
grows by one in that case and is unchanged otherwise). -/
theorem call_keeps_arguments (V : Type) [LittleValue V] (p : Process V)
    (s : Machine V) (c argc : Nat) (ret : Bool) (f : List V → Except String V)
    (hi : p.instructions.get? s.pc = some (Instruction.call c argc ret))
    (hc : p.calls c = some f) (hlen : argc ≤ s.stack.length)
    (hbound : s.stack.length < two64) :
    (ret = false → execute p s = Outcome.ok ExecutionResult.cont { s with pc := s.pc + 1 }) ∧
    (∀ v, ret = true → f (s.stack.drop (s.stack.length - argc)) = Except.ok v →
      execute p s = Outcome.ok ExecutionResult.cont
        { s with stack := s.stack ++ [v], pc := s.pc + 1 }) := by
  have hw : wrapSub s.stack.length argc = s.stack.length - argc :=
    wrapSub_of_le hlen hbound
  have hs : sliceRange s.stack (wrapSub s.stack.length argc) s.stack.length =
      some (s.stack.drop (s.stack.length - argc)) := by
    rw [hw]
    exact sliceRange_suffix s.stack (by omega)
  simp only [List.get?_eq_getElem?] at hi
  constructor
  · intro hret
    subst hret
    simp [execute, hi, hc, hs]
  · intro v hret hf
    subst hret
    simp [execute, hi, hc, hs, hf]

/-- C3 witness: the two-argument summing call of `callOkP` keeps both
pushed constants and appends the result. -/
theorem call_keeps_arguments_witness :
    execute callOkP (Machine.mk 2 [] [Value.int 2, Value.int 3] []) =
      Outcome.ok ExecutionResult.cont
        { Machine.mk 2 [] [Value.int 2, Value.int 3] ([] : List Value) with
          stack := [Value.int 2, Value.int 3] ++ [Value.int 5], pc := 2 + 1 } :=
  (call_keeps_arguments Value callOkP (Machine.mk 2 [] [Value.int 2, Value.int 3] [])
    1 2 true
    (fun args =>
      match args with
      | [Value.int a, Value.int b] => Except.ok (Value.int (a + b))
      | _ => Except.error "bad arguments")
    rfl rfl (by decide) (by decide)).2 (Value.int 5) rfl rfl

/-- C4: with a non-empty stack and a resolvable location, `CondJump`
jumps to its target exactly when the condition holds of (stack top,
addressed value); nothing is consumed, and a false test advances the
program counter by one.  Under the value type's partial order every
incomparable comparison makes the four order tests false. -/
theorem condJump_semantics :
    (∀ (V : Type) [LittleValue V] (p : Process V) (s : Machine V) (loc : Nat)
      (m : Mem) (cond : Cond) (v top : V),
      p.instructions.get? s.pc = some (Instruction.condJump loc m cond) →
      getMemValue p s m = Except.ok v → s.stack.getLast? = some top →
      execute p s = Outcome.ok ExecutionResult.cont
        { s with pc := if condHolds cond top v then loc else s.pc + 1 }) ∧
    (∀ (V : Type) [LittleValue V] (a b : V), LittleValue.pcmp a b = none →
      condHolds Cond.gt a b = false ∧ condHolds Cond.gte a b = false ∧
      condHolds Cond.lt a b = false ∧ condHolds Cond.lte a b = false) := by
  constructor
  · intro V _ p s loc m cond v top hi hm htop
    simp only [List.get?_eq_getElem?] at hi
    cases hcond : condHolds cond top v <;> simp [execute, hi, hm, htop, hcond]
  · intro V _ a b h
    simp [condHolds, h]

/-- C4 witness: the equality jump taken at `Int(1) = Int(1)`, and the
incomparable pair of `PV` failing all four order tests. -/
theorem condJump_semantics_witness :
    execute condP (Machine.mk 0 [] [Value.int 1] []) =
      Outcome.ok ExecutionResult.cont
        { Machine.mk 0 [] [Value.int 1] ([] : List Value) with
          pc := if condHolds Cond.eq (Value.int 1) (Value.int 1) then 3 else 0 + 1 } ∧
    (condHolds Cond.gt PV.a PV.b = false ∧ condHolds Cond.gte PV.a PV.b = false ∧
      condHolds Cond.lt PV.a PV.b = false ∧ condHolds Cond.lte PV.a PV.b = false) :=
  ⟨condJump_semantics.1 Value condP (Machine.mk 0 [] [Value.int 1] []) 3
    (Mem.const 1) Cond.eq (Value.int 1) (Value.int 1) rfl rfl rfl,
   condJump_semantics.2 PV PV.a PV.b rfl⟩

/-- C5: `Interupt` first advances the program counter, then the step
reports the interruption; a read whose buffer is still short surfaces it
as the `Interupt` transport error with the advanced state, so a consumer
that swallows it resumes after the interrupt.  Driving the
`Output(Const 1); Interupt; Output(Const 1)` program with
`Constant(1) = "Abr"` through the read loop delivers exactly "AbrAbr"
with exactly one interrupt observed. -/
theorem interupt_resume :
    (∀ (V : Type) [LittleValue V] (p : Process V) (s : Machine V),
      p.instructions.get? s.pc = some Instruction.interupt →
      execute p s = Outcome.ok ExecutionResult.interupt { s with pc := s.pc + 1 }) ∧
    (∀ (V : Type) [LittleValue V] (p : Process V) (fuel : Nat) (s : Machine V) (d : Nat),
      s.buf.length < d → p.instructions.get? s.pc = some Instruction.interupt →
      read p (Nat.succ fuel) s d = ReadResult.err Error.interupt { s with pc := s.pc + 1 }) ∧
    readLoop interuptP 8 initMachine 64 [] 0 =
      LoopResult.finished [65, 98, 114, 65, 98, 114] 1 := by
  refine ⟨?_, ?_, rfl⟩
  · intro V _ p s hi
    simp only [List.get?_eq_getElem?] at hi
    simp [execute, hi]
  · intro V _ p fuel s d hbuf hi
    simp only [List.get?_eq_getElem?] at hi
    have hx : execute p s = Outcome.ok ExecutionResult.interupt { s with pc := s.pc + 1 } := by
      simp [execute, hi]
    rw [read_step fuel (by omega), hx]

/-- C5 witness: the interrupt step and its read-level surfacing at the
`interuptP` program's second instruction. -/
theorem interupt_resume_witness :
    execute interuptP (Machine.mk 1 [65, 98, 114] [] []) =
      Outcome.ok ExecutionResult.interupt
        { Machine.mk 1 [65, 98, 114] ([] : List Value) [] with pc := 1 + 1 } ∧
    read interuptP 4 (Machine.mk 1 [65, 98, 114] [] []) 64 =
      ReadResult.err Error.interupt
        { Machine.mk 1 [65, 98, 114] ([] : List Value) [] with pc := 1 + 1 } :=
  ⟨interupt_resume.1 Value interuptP (Machine.mk 1 [65, 98, 114] [] []) rfl,
   interupt_resume.2.1 Value interuptP 3 (Machine.mk 1 [65, 98, 114] [] []) 64
    (by decide) rfl⟩

end Little

namespace Little

/-- C8: a `Load` at binding index `b` with a resolvable source grows the
binding vector to exactly `b + 1` slots when it was shorter, every newly
created slot reading as the default value (the stored copy then sits at
index `b`); an index needing more than `MAX_VALUES` slots is fatal
(the machine crashes), and any surviving step keeps the binding vector
within `MAX_VALUES`. -/
theorem load_grows_bindings (V : Type) [LittleValue V] (p : Process V)
    (s : Machine V) (b : Nat) (m : Mem) (v : V)
    (hi : p.instructions.get? s.pc = some (Instruction.load b m))
    (hm : getMemValue p s m = Except.ok v) :
    (MAX_VALUES < b + 1 → execute p s = Outcome.crash) ∧
    (b + 1 ≤ MAX_VALUES →
      execute p s = Outcome.ok ExecutionResult.cont
        { s with values := (growTo s.values (b + 1)).set b v, pc := s.pc + 1 }) ∧
    (s.values.length < b + 1 →
      ((growTo s.values (b + 1)).set b v).length = b + 1) ∧
    (∀ j, s.values.length ≤ j → j < b →
      ((growTo s.values (b + 1)).set b v).get? j = some (LittleValue.dflt : V)) ∧
    (∀ (s1 : Machine V) (r : ExecutionResult) (s2 : Machine V),
      execute p s1 = Outcome.ok r s2 → s1.values.length ≤ MAX_VALUES →
      s2.values.length ≤ MAX_VALUES) := by
  simp only [List.get?_eq_getElem?] at hi
  refine ⟨?_, ?_, ?_, ?_, ?_⟩
  · intro hgt
    simp [execute, hi, hm, valuesSet, hgt]
  · intro hle
    have hnot : ¬ (MAX_VALUES < b + 1) := by omega
    simp [execute, hi, hm, valuesSet, hnot]
  · intro hshort
    simp [growTo, hshort, List.length_set]
    omega
  · intro j hj hjb
    have hne : b ≠ j := by omega
    have hgrow : s.values.length < b + 1 := by omega
    simp only [List.get?_eq_getElem?]
    rw [List.getElem?_set_ne hne]
    simp only [growTo, if_pos hgrow]
    rw [List.getElem?_append_right (by omega)]
    have hx : j - s.values.length < b + 1 - s.values.length := by omega
    simp [List.getElem?_replicate, hx]
  · intro s1 r s2 hx hle
    exact exec_ok_values_le hx hle

/-- C8 witness: `Load(Binding(2), Const(1))` on empty bindings grows the
vector to three slots, slot 1 reading as default. -/
theorem load_grows_bindings_witness :
    execute loadP initMachine = Outcome.ok ExecutionResult.cont
      { initMachine (V := Value) with
        values := (growTo (initMachine (V := Value)).values (2 + 1)).set 2
          (Value.str [72, 105]),
        pc := (initMachine (V := Value)).pc + 1 } ∧
    ((growTo (initMachine (V := Value)).values (2 + 1)).set 2
        (Value.str [72, 105])).length = 2 + 1 ∧
    ((growTo (initMachine (V := Value)).values (2 + 1)).set 2
        (Value.str [72, 105])).get? 1 = some (LittleValue.dflt : Value) :=
  ⟨(load_grows_bindings Value loadP initMachine 2 (Mem.const 1)
      (Value.str [72, 105]) rfl rfl).2.1 (by decide),
   (load_grows_bindings Value loadP initMachine 2 (Mem.const 1)
      (Value.str [72, 105]) rfl rfl).2.2.1 (by decide),
   (load_grows_bindings Value loadP initMachine 2 (Mem.const 1)
      (Value.str [72, 105]) rfl rfl).2.2.2.1 1 (by decide) (by decide)⟩

end Little

namespace Little

lemma read_zero_stuck {V : Type} [LittleValue V] {p : Process V} {s : Machine V}
    {d : Nat} (h : ¬ d ≤ s.buf.length) : read p 0 s d = ReadResult.fuelOut s := by
  rw [read]
  rw [if_neg (by omega)]

/-- C6: a successful `read` drains exactly `min(len(buf), len(dst))` bytes
from the front of the buffer of some state reached by stepping only while
the buffer was shorter than the destination (or the machine finished);
a zero-length destination always returns 0 bytes at once with the state
untouched, and the first read of an empty program returns 0 with no
error. -/
theorem read_fifo_min :
    (∀ (V : Type) [LittleValue V] (p : Process V) (fuel : Nat) (s : Machine V),
      read p fuel s 0 = ReadResult.ok 0 [] s) ∧
    (∀ (V : Type) [LittleValue V] (p : Process V) (fuel : Nat) (d : Nat),
      p.instructions = [] →
      read p (Nat.succ fuel) initMachine d = ReadResult.ok 0 [] initMachine) ∧
    (∀ (V : Type) [LittleValue V] (p : Process V) (fuel : Nat) (s : Machine V)
      (d n : Nat) (bytes : List Nat) (s2 : Machine V),
      read p fuel s d = ReadResult.ok n bytes s2 →
      ∃ sb, stepsTo p s sb ∧
        (d ≤ sb.buf.length ∨ execute p sb = Outcome.ok ExecutionResult.done sb) ∧
        n = min sb.buf.length d ∧ bytes = sb.buf.take n ∧
        s2 = { sb with buf := sb.buf.drop n }) := by
  refine ⟨?_, ?_, ?_⟩
  · intro V _ p fuel s
    rw [read_full fuel (Nat.zero_le _)]
    simp
  · intro V _ p fuel d hinst
    by_cases hd : d ≤ (initMachine (V := V)).buf.length
    · rw [read_full _ hd]
      simp only [initMachine] at hd ⊢
      simp at hd
      simp [hd]
    · have hx : execute p (initMachine (V := V)) =
          Outcome.ok ExecutionResult.done initMachine := by
        simp [execute, hinst, initMachine]
      rw [read_step fuel hd, hx]
      simp [initMachine]
  · intro V _ p fuel
    induction fuel with
    | zero =>
      intro s d n bytes s2 h
      by_cases hd : d ≤ s.buf.length
      · rw [read_full 0 hd] at h
        cases h
        exact ⟨s, Relation.ReflTransGen.refl, Or.inl hd, rfl, rfl, rfl⟩
      · rw [read_zero_stuck hd] at h
        cases h
    | succ fuel ih =>
      intro s d n bytes s2 h
      by_cases hd : d ≤ s.buf.length
      · rw [read_full _ hd] at h
        cases h
        exact ⟨s, Relation.ReflTransGen.refl, Or.inl hd, rfl, rfl, rfl⟩
      · rw [read_step fuel hd] at h
        cases hx : execute p s with
        | ok r s3 =>
          rw [hx] at h
          cases r with
          | done =>
            obtain ⟨hss, _⟩ := exec_done_eq hx
            subst hss
            cases h
            exact ⟨s3, Relation.ReflTransGen.refl, Or.inr hx, rfl, rfl, rfl⟩
          | cont =>
            obtain ⟨sb, hsteps, hstop, hn, hb, hs2⟩ := ih s3 d n bytes s2 h
            exact ⟨sb, Relation.ReflTransGen.head hx hsteps, hstop, hn, hb, hs2⟩
          | interupt => cases h
        | err e s3 =>
          rw [hx] at h
          cases h
        | crash =>
          rw [hx] at h
          cases h

/-- C6 witness: the first read of the empty program with a five-byte
destination steps straight to `Done` and copies zero bytes. -/
theorem read_fifo_min_witness :
    ∃ sb, stepsTo emptyP initMachine sb ∧
      (5 ≤ sb.buf.length ∨ execute emptyP sb = Outcome.ok ExecutionResult.done sb) ∧
      0 = min sb.buf.length 5 ∧ ([] : List Nat) = sb.buf.take 0 ∧
      initMachine = { sb with buf := sb.buf.drop 0 } :=
  read_fifo_min.2.2 Value emptyP 1 initMachine 5 0 [] initMachine rfl

end Little

namespace Little

/-- C10: an erroring step hands back the state as it was when the error
arose — same buffer, same program counter, same bindings; whenever `read`
returns an error (the `Interupt` kind included) the surviving state's
buffer still starts with every byte that was pending when the read began
(nothing buffered is dropped), and a later read whose destination is no
larger than the buffer delivers those bytes from the front without
stepping the machine. -/
theorem read_error_preserves_buffer :
    (∀ (V : Type) [LittleValue V] (p : Process V) (s : Machine V) (e : Error)
      (s2 : Machine V),
      execute p s = Outcome.err e s2 →
      s2.buf = s.buf ∧ s2.pc = s.pc ∧ s2.values = s.values) ∧
    (∀ (V : Type) [LittleValue V] (p : Process V) (fuel : Nat) (s : Machine V)
      (d : Nat) (e : Error) (s2 : Machine V),
      read p fuel s d = ReadResult.err e s2 → ∃ t, s2.buf = s.buf ++ t) ∧
    (∀ (V : Type) [LittleValue V] (p : Process V) (fuel : Nat) (s : Machine V)
      (d : Nat), d ≤ s.buf.length →
      read p fuel s d = ReadResult.ok d (s.buf.take d) { s with buf := s.buf.drop d }) := by
  refine ⟨?_, ?_, ?_⟩
  · intro V _ p s e s2 h
    exact exec_err_state h
  · intro V _ p fuel
    induction fuel with
    | zero =>
      intro s d e s2 h
      by_cases hd : d ≤ s.buf.length
      · rw [read_full 0 hd] at h
        cases h
      · rw [read_zero_stuck hd] at h
        cases h
    | succ fuel ih =>
      intro s d e s2 h
      by_cases hd : d ≤ s.buf.length
      · rw [read_full _ hd] at h
        cases h
      · rw [read_step fuel hd] at h
        cases hx : execute p s with
        | ok r s3 =>
          rw [hx] at h
          cases r with
          | done => cases h
          | cont =>
            obtain ⟨t1, ht1⟩ := exec_cont_buf hx
            obtain ⟨t2, ht2⟩ := ih s3 d e s2 h
            exact ⟨t1 ++ t2, by rw [ht2, ht1, List.append_assoc]⟩
          | interupt =>
            cases h
            have := exec_interupt_eq hx
            subst this
            exact ⟨[], by simp⟩
        | err e1 s3 =>
          rw [hx] at h
          cases h
          obtain ⟨hb, _, _⟩ := exec_err_state hx
          exact ⟨[], by simp [hb]⟩
        | crash =>
          rw [hx] at h
          cases h
  · intro V _ p fuel s d hd
    rw [read_full fuel hd]
    have : min s.buf.length d = d := by omega
    rw [this]

/-- C10 witness: an underflow read keeps the (empty) buffer, and a read
against a three-byte buffer with a two-byte destination delivers the two
front bytes and keeps the third. -/
theorem read_error_preserves_buffer_witness :
    (∃ t, (initMachine (V := Value)).buf = (initMachine (V := Value)).buf ++ t) ∧
    read interuptP 5 (Machine.mk 2 [65, 98, 114] [] []) 2 =
      ReadResult.ok 2 ((Machine.mk 2 [65, 98, 114] ([] : List Value) []).buf.take 2)
        { Machine.mk 2 [65, 98, 114] ([] : List Value) [] with
          buf := (Machine.mk 2 [65, 98, 114] ([] : List Value) []).buf.drop 2 } :=
  ⟨read_error_preserves_buffer.2.1 Value popP 1 initMachine 1 Error.stackUnderflow
    initMachine rfl,
   read_error_preserves_buffer.2.2 Value interuptP 5
    (Machine.mk 2 [65, 98, 114] [] []) 2 (by decide)⟩

end Little
